import Mathlib

/-!
Verification of the `jet_talk_modbus_api.py` Modbus-RTU gateway.

The Python source is shallowly embedded: the register cache (a Python
`dict` keyed by address) is modelled as an association list with
overwrite-in-place / append-at-end assignment (Python dicts preserve
insertion order, replace values on key collision without changing size,
and the gateway never iterates over the cache dict); stateful routines
become explicit state-passing functions; Python exceptions
(`IndexError`, `struct.error`, `serial.SerialException`) become
`Except` / `Option` results or oracle parameters; wall-clock times are
rationals.
-/

namespace JetTalk

/-! ## Definitions -/

/-! ### Configuration constants (module header of jet_talk_modbus_api.py) -/

def SLAVE_ADDRESS : Nat := 5
def MAX_READ_QUANTITY : Nat := 47
def MAX_ERROR_LOGS : Nat := 30
def RANGE_TIMEOUT : ℚ := 10

/-! ### Register cache

`ModbusClient.register_cache` is a Python dict `{address: value}`. -/

abbrev Cache := List (Nat × Nat)

/-- `cache.get(k, d)`: value of the first entry with key `k`, else `d`. -/
def dictGet : Cache → Nat → Nat → Nat
  | [], _, d => d
  | p :: t, k, d => if p.1 = k then p.2 else dictGet t k d

/-- `k in cache`. -/
def dictMem : Cache → Nat → Bool
  | [], _ => false
  | p :: t, k => p.1 == k || dictMem t k

/-- `cache[k] = v`: overwrite the entry for `k` in place, else append. -/
def dictSet : Cache → Nat → Nat → Cache
  | [], k, v => [(k, v)]
  | p :: t, k, v => if p.1 = k then (k, v) :: t else p :: dictSet t k v

/-- `get_cached_registers(start, quantity)` (lines 132-139): one value per
address in `[start, start+quantity)`, defaulting to 0. It only reads the
dict. -/
def get_cached_registers (c : Cache) (start quantity : Nat) : List Nat :=
  (List.range quantity).map (fun i => dictGet c (start + i) 0)

/-- `update_cache(start, registers)` (lines 141-145):
`for i, value in enumerate(registers): cache[start + i] = value`.
The enumerate index is tracked by advancing `start` one address per
consumed value. -/
def update_cache : Cache → Nat → List Nat → Cache
  | c, _, [] => c
  | c, start, v :: vs => update_cache (dictSet c start v) (start + 1) vs

/-- A put history: the sequence of `update_cache` calls made so far,
applied in order to a cache. -/
def applyPuts (puts : List (Nat × List Nat)) (c : Cache) : Cache :=
  puts.foldl (fun acc p => update_cache acc p.1 p.2) c

/-- Spec-side notion: the value most recently stored for address `a` by
any put in the history, if one ever covered `a` (later puts win). -/
def lastPut? : List (Nat × List Nat) → Nat → Option Nat
  | [], _ => none
  | p :: ps, a =>
    match lastPut? ps a with
    | some v => some v
    | none =>
        if p.1 ≤ a ∧ a < p.1 + p.2.length then some (p.2.getD (a - p.1) 0)
        else none

/-- Gateway operations touching the register cache. -/
inductive CacheOp
  | put : Nat → List Nat → CacheOp
  | get : Nat → Nat → CacheOp

/-- Effect of one gateway cache operation on the dict: `update_cache`
mutates it; `get_cached_registers` only calls `dict.get` and leaves the
dict unchanged. -/
def cacheAfter : Cache → CacheOp → Cache
  | c, .put s vs => update_cache c s vs
  | c, .get _ _ => c

def runCacheOps (c : Cache) (ops : List CacheOp) : Cache :=
  ops.foldl cacheAfter c

def putsOf : List CacheOp → List (Nat × List Nat)
  | [] => []
  | .put s vs :: ops => (s, vs) :: putsOf ops
  | .get _ _ :: ops => putsOf ops

/-! ### Interest tracker

`ModbusClient.active_ranges` is a dict `{(start, end): last_access}`;
`get_polling_range` (lines 108-130) first deletes every entry whose age
exceeds `RANGE_TIMEOUT`, then spans the survivors. -/

abbrev Ranges := List ((Int × Int) × ℚ)

/-- The entries that survive the eviction pass of `get_polling_range`:
the code collects every key with `current_time - last_access >
RANGE_TIMEOUT` into `to_remove` and deletes them. -/
def keptRanges (r : Ranges) (now : ℚ) : Ranges :=
  r.filter (fun en => decide (¬ now - en.2 > RANGE_TIMEOUT))

/-- Fold computing `(min(start), max(end))` over surviving entries. -/
def spanFold (init : Int × Int) (es : Ranges) : Int × Int :=
  es.foldl (fun acc en => (min acc.1 en.1.1, max acc.2 en.1.2)) init

/-- `get_polling_range()` (lines 108-130): evict stale entries, return
`None` when none remain, else `(min(start), max(end))`. -/
def get_polling_range (r : Ranges) (now : ℚ) : Option (Int × Int) :=
  match keptRanges r now with
  | [] => none
  | en :: es => some (spanFold (en.1.1, en.1.2) es)

/-! ### CRC16 and frame encoding -/

/-- One shift step of the CRC inner loop:
`if crc & 1: crc = (crc >> 1) ^ 0xA001 else: crc >>= 1`. -/
def crcShift (crc : Nat) : Nat :=
  if crc % 2 = 1 then (crc / 2) ^^^ 0xA001 else crc / 2

/-- `for _ in range(8)` of `crcShift`. -/
def crcRounds : Nat → Nat → Nat
  | 0, crc => crc
  | n + 1, crc => crcRounds n (crcShift crc)

/-- `calculate_crc16(data)` (lines 150-162), value before packing. -/
def calculate_crc16_val (data : List Nat) : Nat :=
  data.foldl (fun crc b => crcRounds 8 (crc ^^^ b)) 0xFFFF

/-- `struct.pack('<H', crc)`: the CRC as two little-endian bytes. -/
def calculate_crc16 (data : List Nat) : List Nat :=
  [calculate_crc16_val data % 256, calculate_crc16_val data / 256 % 256]

/-- CRC16 as the spec words it: seed 0xFFFF; per byte, XOR the byte into
the CRC, then 8 steps of shift-right with a conditional XOR of 0xA001
when the low bit is set. Written independently of `calculate_crc16` for
comparison. -/
def crc16_specSteps : Nat → Nat → Nat
  | 0, c => c
  | n + 1, c => crc16_specSteps n (if c % 2 = 1 then (c / 2) ^^^ 0xA001 else c / 2)

def crc16_spec : List Nat → Nat → Nat
  | [], crc => crc
  | b :: bs, crc => crc16_spec bs (crc16_specSteps 8 (crc ^^^ b))

/-- `struct.pack('>H', v)` on a Python int: big-endian 16-bit field;
raises `struct.error` (modelled as `none`) unless `0 ≤ v < 65536`. -/
def packH (v : Int) : Option (List Nat) :=
  if 0 ≤ v ∧ v < 65536 then some [(v.toNat / 256) % 256, v.toNat % 256] else none

/-- `bytes([v])` / `struct.pack('>B', v)`: one byte, defined for
`0 ≤ v < 256`. -/
def packB (v : Nat) : Option (List Nat) :=
  if v < 256 then some [v] else none

/-- `create_modbus_read_request(slave, address, quantity)` (lines
165-176): slave byte, `0x03`, big-endian address, big-endian quantity,
then the little-endian CRC16 of those six bytes. -/
def create_modbus_read_request (slave_address : Nat)
    (register_address quantity : Int) : Option (List Nat) := do
  let a ← packH register_address
  let q ← packH quantity
  let s ← packB slave_address
  let request := s ++ [0x03] ++ a ++ q
  some (request ++ calculate_crc16 request)

/-- `create_modbus_write_request(slave, address, value)` (lines
178-189): as the read request with function byte `0x06` and the value
in place of the quantity. -/
def create_modbus_write_request (slave_address : Nat)
    (register_address value : Int) : Option (List Nat) := do
  let a ← packH register_address
  let v ← packH value
  let s ← packB slave_address
  let request := s ++ [0x06] ++ a ++ v
  some (request ++ calculate_crc16 request)

/-! ### Response parsing -/

/-- The dict built by `parse_modbus_response`; keys that a given branch
never sets are `none` / `[]`. -/
structure ParsedResponse where
  status : String
  raw : List Nat
  slave_address : Option Nat := none
  function_code : Option Nat := none
  registers : List Nat := []
  exception_code : Option Nat := none
  message : Option String := none
deriving Repr, DecidableEq

/-- `response[i]` on a Python bytes object: `IndexError` when out of
range. -/
def pyByte : List Nat → Nat → Except String Nat
  | [], _ => Except.error "IndexError"
  | b :: _, 0 => Except.ok b
  | _ :: t, n + 1 => pyByte t n

/-- The 0x03 payload loop: `for i in range(0, len(data), 2)` appending
`(data[i] << 8) | data[i+1]` while a full pair remains; a trailing odd
byte is skipped by the `i + 1 < len(data)` guard. -/
def regPairs : List Nat → List Nat
  | hb :: lb :: rest => ((hb <<< 8) ||| lb) :: regPairs rest
  | _ => []

/-- `parse_modbus_response(response)` (lines 191-225). An uncaught
`IndexError` (short 0x06 frame) is `Except.error`. -/
def parse_modbus_response (response : List Nat) : Except String ParsedResponse :=
  if response.length < 3 then
    Except.ok { status := "error", raw := response,
                message := some "Response too short" }
  else do
    let b0 ← pyByte response 0
    let b1 ← pyByte response 1
    if b1 &&& 0x80 ≠ 0 then
      let ec ← pyByte response 2
      Except.ok { status := "error", raw := response,
                  slave_address := some b0, function_code := some b1,
                  exception_code := some ec }
    else if b1 = 0x03 then
      let byte_count ← pyByte response 2
      let data := (response.drop 3).take byte_count
      Except.ok { status := "success", raw := response,
                  slave_address := some b0, function_code := some b1,
                  registers := regPairs data }
    else if b1 = 0x06 then
      let hi ← pyByte response 2
      let lo ← pyByte response 3
      Except.ok { status := "success", raw := response,
                  slave_address := some b0, function_code := some b1,
                  registers := [(hi <<< 8) ||| lo] }
    else
      Except.ok { status := "success", raw := response,
                  slave_address := some b0, function_code := some b1 }

/-! ### Transport (`send_modbus_request_raw`, lines 227-273)

The serial port is an oracle: `openOk` tells whether `open_port` would
succeed, `WireOutcome` tells what the write/read exchange does.
`'mb-offline'` is the spec's `TransportError` status string. -/

structure ClientState where
  port_open : Bool
  status : String
  error_logs : List String
  last_packets : List ℚ
deriving Repr, DecidableEq

/-- `deque(maxlen=cap).append`: drop from the front on overflow. -/
def ringAppend (cap : Nat) (l : List String) (x : String) : List String :=
  let l2 := l ++ [x]
  l2.drop (l2.length - cap)

def ringAppendQ (cap : Nat) (l : List ℚ) (x : ℚ) : List ℚ :=
  let l2 := l ++ [x]
  l2.drop (l2.length - cap)

/-- `add_error_log` (lines 56-61). -/
def add_error_log (st : ClientState) (msg : String) : ClientState :=
  { st with error_logs := ringAppend MAX_ERROR_LOGS st.error_logs msg }

/-- `record_packet_time` (lines 63-65). -/
def record_packet_time (st : ClientState) (rt : ℚ) : ClientState :=
  { st with last_packets := ringAppendQ 10 st.last_packets rt }

inductive WireOutcome
  | serialError (msg : String)
  | response (bytes : List Nat) (rt : ℚ)

/-- The request-building step of `send_modbus_request_raw`: a write
frame when `write_value` is given, else a read frame (both fail on
out-of-range `struct.pack` fields; a read with `quantity=None` also
raises in `struct.pack`). -/
def encodeReq (slave : Nat) (addr : Int)
    (quantity write_value : Option Int) : Option (List Nat) :=
  match write_value with
  | some v => create_modbus_write_request slave addr v
  | none =>
      match quantity with
      | some q => create_modbus_read_request slave addr q
      | none => none

/-- `send_modbus_request_raw` (lines 227-273). Branches, in source
order: ensure-open (`open_port` on a closed port, failing with
`'Cannot open serial port'`); request encoding (`struct.error` lands in
the generic `except Exception` arm: status `'mb-offline'`, log, no
close); `serial.SerialException` on the exchange (status
`'mb-offline'`, log, `close_port`); otherwise the response bytes are
parsed — a parse exception hits the generic arm (no close), a parsed
error dict sets `'mb-offline'` and logs without closing, and a parsed
success dict sets `'online'`. -/
def send_modbus_request_raw (st : ClientState) (openOk : Bool)
    (outcome : WireOutcome) (slave : Nat) (addr : Int)
    (quantity : Option Int) (write_value : Option Int) :
    ClientState × ParsedResponse :=
  if ¬ st.port_open ∧ ¬ openOk then
    (add_error_log { st with status := "mb-offline" } "Failed to open port",
     { status := "error", raw := [], message := some "Cannot open serial port" })
  else
    let st1 := if st.port_open then st
               else { st with port_open := true, status := "online" }
    match encodeReq slave addr quantity write_value with
    | none =>
        (add_error_log { st1 with status := "mb-offline" } "Unexpected error",
         { status := "error", raw := [], message := some "Error" })
    | some _req =>
        match outcome with
        | .serialError m =>
            ({ add_error_log { st1 with status := "mb-offline" }
                 ("Serial exception: " ++ m) with port_open := false },
             { status := "error", raw := [],
               message := some ("Serial error: " ++ m) })
        | .response bytes rt =>
            let st2 := record_packet_time st1 rt
            match parse_modbus_response bytes with
            | .error m =>
                (add_error_log { st2 with status := "mb-offline" }
                   ("Unexpected error: " ++ m),
                 { status := "error", raw := [],
                   message := some ("Error: " ++ m) })
            | .ok parsed =>
                if parsed.status = "success" then
                  ({ st2 with status := "online" }, parsed)
                else
                  (add_error_log { st2 with status := "mb-offline" }
                     "Modbus error response", parsed)

/-- Whether parsing `bytes` fails to produce a success dict (a decode
failure in the spec's sense: exception, error dict, or short frame). -/
def decodeFailed (bytes : List Nat) : Bool :=
  match parse_modbus_response bytes with
  | .error _ => true
  | .ok p => p.status != "success"

/-! ### The worker's polling pass (lines 305-333)

The per-chunk read transaction is an oracle `Nat → Nat → Option (List
Nat)`: `some regs` is a successful read of `regs`, `none` a failure
(which the code only logs). -/

/-- The error-log message of a failed chunk, source line 329:
`f"Polling failed: addr={current_addr}, qty={read_qty}"` (the
timestamp `add_error_log` prepends is elided, as in `ClientState`). -/
def pollFailMsg (current_addr read_qty : Nat) : String :=
  "Polling failed: addr=" ++ toString current_addr
    ++ ", qty=" ++ toString read_qty

/-- The `while remaining > 0` loop of `background_worker`'s polling
branch over the cache and the error-log ring:
`read_qty = min(remaining, MAX_READ_QUANTITY)`; on success
`update_cache(current_addr, registers)`; on failure
`add_error_log("Polling failed: ...")`; always advance. -/
def pollLoop (oracle : Nat → Nat → Option (List Nat)) :
    Nat → Nat → Cache → List String → Cache × List String
  | current, remaining, c, logs =>
    if remaining = 0 then (c, logs)
    else
      let read_qty := min remaining MAX_READ_QUANTITY
      match oracle current read_qty with
      | some regs =>
          pollLoop oracle (current + read_qty) (remaining - read_qty)
            (update_cache c current regs) logs
      | none =>
          pollLoop oracle (current + read_qty) (remaining - read_qty) c
            (ringAppend MAX_ERROR_LOGS logs (pollFailMsg current read_qty))
  termination_by _ remaining _ _ => remaining
  decreasing_by all_goals simp only [MAX_READ_QUANTITY]; omega

/-- The chunk decomposition the loop walks: `(current_addr, read_qty)`
pairs in issue order. -/
def chunkList : Nat → Nat → List (Nat × Nat)
  | current, remaining =>
    if remaining = 0 then []
    else
      let q := min remaining MAX_READ_QUANTITY
      (current, q) :: chunkList (current + q) (remaining - q)
  termination_by _ remaining => remaining
  decreasing_by simp only [MAX_READ_QUANTITY]; omega

/-- The addresses a chunk list covers, in issue order. -/
def chunkAddrs (cs : List (Nat × Nat)) : List Nat :=
  cs.flatMap (fun ch => (List.range ch.2).map (fun i => ch.1 + i))

/-! ### The worker loop as a trace (lines 280-336)

Each iteration first does `task_queue.get(timeout=0.1)`; a write task is
issued alone, else the whole polling pass runs. `IterInput` gives, per
iteration, the tasks that arrived since the previous one and the read
chunks the polling pass would issue if the queue turns out empty. -/

structure WTask where
  address : Int
  value : Int
deriving Repr, DecidableEq

inductive WorkerEvent
  | write (t : WTask)
  | pollChunk (addr qty : Nat)
deriving Repr, DecidableEq

structure IterInput where
  arrivals : List WTask
  chunks : List (Nat × Nat)

/-- The sequence of transport operations the worker issues, given the
queue contents at the start and the per-iteration inputs. -/
def workerRun : List WTask → List IterInput → List WorkerEvent
  | _, [] => []
  | queue, it :: rest =>
    match queue ++ it.arrivals with
    | [] => it.chunks.map (fun ch => WorkerEvent.pollChunk ch.1 ch.2)
              ++ workerRun [] rest
    | t :: ts => WorkerEvent.write t :: workerRun ts rest

/-- The write tasks issued, in issue order. -/
def writesOf (evs : List WorkerEvent) : List WTask :=
  evs.filterMap (fun e => match e with | .write t => some t | _ => none)

/-! ### API endpoints -/

structure GatewayState where
  cache : Cache
  task_queue : List WTask
deriving Repr, DecidableEq

/-- `send_data` handler (lines 386-427) after JSON integer extraction:
validates only the value range, enqueues on success, and returns the
HTTP status code. -/
def send_data (st : GatewayState) (address value : Int) : Nat × GatewayState :=
  if value < 0 ∨ value > 65535 then (400, st)
  else (200, { st with task_queue := st.task_queue ++ [⟨address, value⟩] })

/-! ## Theorems -/

/-! ### Basic dict lemmas -/

theorem dictGet_dictSet (c : Cache) (k v k' d : Nat) :
    dictGet (dictSet c k v) k' d = if k' = k then v else dictGet c k' d := by
  induction c with
  | nil => by_cases h : k' = k <;> simp [dictSet, dictGet, h, Ne.symm]
  | cons p t ih =>
      by_cases hp : p.1 = k
      · by_cases h : k' = k
        · subst h; simp [dictSet, dictGet, hp]
        · have hk : ¬ (k = k') := fun hh => h hh.symm
          have hpk : ¬ (p.1 = k') := by rw [hp]; exact hk
          simp [dictSet, dictGet, hp, h, hk, hpk]
      · by_cases h : k' = k
        · subst h
          simp [dictSet, dictGet, hp, ih]
        · simp only [dictSet, if_neg hp, dictGet]
          by_cases hpk : p.1 = k'
          · simp [hpk, h]
          · simp [hpk, ih, h]

theorem dictMem_dictSet (c : Cache) (k v k' : Nat) :
    dictMem (dictSet c k v) k' = ((k == k') || dictMem c k') := by
  induction c with
  | nil => simp [dictSet, dictMem]
  | cons p t ih =>
      by_cases hp : p.1 = k
      · subst hp
        simp only [dictSet, if_pos rfl, dictMem]
        cases h : (p.1 == k') <;> simp [h]
      · simp only [dictSet, if_neg hp, dictMem, ih]
        cases h1 : (p.1 == k') <;> cases h2 : (k == k') <;> simp

theorem length_dictSet (c : Cache) (k v : Nat) :
    (dictSet c k v).length = if dictMem c k then c.length else c.length + 1 := by
  induction c with
  | nil => simp [dictSet, dictMem]
  | cons p t ih =>
      by_cases hp : p.1 = k
      · simp [dictSet, dictMem, hp]
      · simp only [dictSet, if_neg hp, dictMem, List.length_cons, ih]
        rw [show (p.1 == k) = false by simp [hp]]
        by_cases ht : dictMem t k <;> simp [ht]

theorem length_dictSet_ge (c : Cache) (k v : Nat) :
    c.length ≤ (dictSet c k v).length := by
  rw [length_dictSet]; split <;> omega

/-! ### Lemmas about `update_cache` -/

theorem dictGet_update_cache (vs : List Nat) (c : Cache) (s a d : Nat) :
    dictGet (update_cache c s vs) a d =
      if s ≤ a ∧ a < s + vs.length then vs.getD (a - s) 0 else dictGet c a d := by
  induction vs generalizing c s with
  | nil =>
      simp only [update_cache, List.length_nil]
      rw [if_neg (by omega)]
  | cons v vs ih =>
      simp only [update_cache, List.length_cons]
      rw [ih, dictGet_dictSet]
      by_cases h1 : s + 1 ≤ a ∧ a < s + 1 + vs.length
      · rw [if_pos h1, if_pos (by omega)]
        have : a - s = (a - (s + 1)) + 1 := by omega
        rw [this, List.getD_cons_succ]
      · rw [if_neg h1]
        by_cases h2 : a = s
        · subst h2
          rw [if_pos rfl, if_pos (by omega)]
          simp
        · rw [if_neg h2, if_neg (by omega)]

theorem dictMem_update_cache (vs : List Nat) (c : Cache) (s a : Nat) :
    dictMem (update_cache c s vs) a =
      (decide (s ≤ a ∧ a < s + vs.length) || dictMem c a) := by
  induction vs generalizing c s with
  | nil =>
      simp only [update_cache, List.length_nil]
      rw [show decide (s ≤ a ∧ a < s + 0) = false by
        simp only [decide_eq_false_iff_not]; omega]
      simp
  | cons v vs ih =>
      simp only [update_cache, List.length_cons]
      rw [ih, dictMem_dictSet]
      by_cases h1 : s + 1 ≤ a ∧ a < s + 1 + vs.length
      · rw [decide_eq_true h1, decide_eq_true (by omega)]
        simp
      · rw [decide_eq_false h1]
        by_cases h2 : s = a
        · subst h2
          rw [decide_eq_true (by omega)]
          simp
        · rw [show (s == a) = false by simp [h2]]
          rw [show decide (s ≤ a ∧ a < s + (vs.length + 1)) = false by
            simp only [decide_eq_false_iff_not]; omega]
          simp

theorem length_update_cache_ge (vs : List Nat) (c : Cache) (s : Nat) :
    c.length ≤ (update_cache c s vs).length := by
  induction vs generalizing c s with
  | nil => simp [update_cache]
  | cons v vs ih =>
      calc c.length ≤ (dictSet c s v).length := length_dictSet_ge c s v
        _ ≤ _ := ih _ _

/-! ### Put histories -/

theorem dictGet_applyPuts (puts : List (Nat × List Nat)) (c : Cache) (a d : Nat) :
    dictGet (applyPuts puts c) a d = (lastPut? puts a).getD (dictGet c a d) := by
  induction puts generalizing c with
  | nil => rfl
  | cons p ps ih =>
      simp only [applyPuts, List.foldl_cons, lastPut?]
      rw [show (List.foldl (fun acc q => update_cache acc q.1 q.2)
        (update_cache c p.1 p.2) ps) = applyPuts ps (update_cache c p.1 p.2) from rfl]
      rw [ih, dictGet_update_cache]
      cases h : lastPut? ps a with
      | some v => simp
      | none =>
          simp only [Option.getD_none]
          by_cases hr : p.1 ≤ a ∧ a < p.1 + p.2.length
          · rw [if_pos hr, if_pos hr]; simp
          · rw [if_neg hr, if_neg hr]; simp

theorem dictMem_applyPuts (puts : List (Nat × List Nat)) (c : Cache) (a : Nat) :
    dictMem (applyPuts puts c) a = ((lastPut? puts a).isSome || dictMem c a) := by
  induction puts generalizing c with
  | nil => simp [applyPuts, lastPut?]
  | cons p ps ih =>
      simp only [applyPuts, List.foldl_cons, lastPut?]
      rw [show (List.foldl (fun acc q => update_cache acc q.1 q.2)
        (update_cache c p.1 p.2) ps) = applyPuts ps (update_cache c p.1 p.2) from rfl]
      rw [ih, dictMem_update_cache]
      cases h : lastPut? ps a with
      | some v => simp
      | none =>
          simp only [Option.isSome]
          by_cases hr : p.1 ≤ a ∧ a < p.1 + p.2.length
          · rw [decide_eq_true hr, if_pos hr]; simp
          · rw [decide_eq_false hr, if_neg hr]; simp

theorem length_applyPuts_ge (puts : List (Nat × List Nat)) (c : Cache) :
    c.length ≤ (applyPuts puts c).length := by
  induction puts generalizing c with
  | nil => simp [applyPuts]
  | cons p ps ih =>
      calc c.length ≤ (update_cache c p.1 p.2).length := length_update_cache_ge _ _ _
        _ ≤ _ := ih _

theorem lastPut?_append (puts puts2 : List (Nat × List Nat)) (a : Nat) :
    lastPut? (puts ++ puts2) a =
      match lastPut? puts2 a with
      | some v => some v
      | none => lastPut? puts a := by
  induction puts with
  | nil =>
      simp only [List.nil_append]
      cases h : lastPut? puts2 a <;> simp [lastPut?, h]
  | cons p ps ih =>
      simp only [List.cons_append, lastPut?, List.append_eq]
      rw [ih]
      cases h2 : lastPut? puts2 a <;> cases h1 : lastPut? ps a <;> simp

theorem get_cached_registers_update (c : Cache) (s : Nat) (vs : List Nat)
    (s' q : Nat) (h1 : s ≤ s') (h2 : s' + q ≤ s + vs.length) :
    get_cached_registers (update_cache c s vs) s' q = (vs.drop (s' - s)).take q := by
  apply List.ext_getElem
  · simp only [get_cached_registers, List.length_map, List.length_range,
      List.length_take, List.length_drop]
    omega
  · intro i hL hR
    simp only [get_cached_registers, List.length_map, List.length_range] at hL
    simp only [get_cached_registers, List.getElem_map, List.getElem_range]
    rw [dictGet_update_cache, if_pos (by omega)]
    rw [List.getElem_take, List.getElem_drop]
    rw [List.getD_eq_getElem?_getD, List.getElem?_eq_getElem (by omega)]
    simp only [Option.getD_some]
    congr 1
    omega

theorem runCacheOps_eq_applyPuts (ops : List CacheOp) (c : Cache) :
    runCacheOps c ops = applyPuts (putsOf ops) c := by
  induction ops generalizing c with
  | nil => rfl
  | cons op ops ih =>
      cases op with
      | put s vs => simp only [runCacheOps, List.foldl_cons, cacheAfter,
          putsOf, applyPuts] at *; exact ih _
      | get s q => simp only [runCacheOps, List.foldl_cons, cacheAfter,
          putsOf, applyPuts] at *; exact ih _

theorem applyPuts_append (p1 p2 : List (Nat × List Nat)) (c : Cache) :
    applyPuts (p1 ++ p2) c = applyPuts p2 (applyPuts p1 c) := by
  simp [applyPuts, List.foldl_append]

theorem putsOf_append (ops1 ops2 : List CacheOp) :
    putsOf (ops1 ++ ops2) = putsOf ops1 ++ putsOf ops2 := by
  induction ops1 with
  | nil => rfl
  | cons op ops ih => cases op <;> simp [putsOf, ih]

/-! ### Claim C1 -/

/-- **C1.** For every put history applied to the initially empty cache
and every start address and quantity, a cache read returns an ordered
sequence of exactly `quantity` values; the value reported for each
address is the value most recently stored for it by a put, or 0 if no
put ever covered it; and after `put(start, values)`, a get over any
sub-range of `[start, start + len(values))` returns exactly the
corresponding slice of `values`. -/
theorem c1_cache_read_returns_last_puts (puts : List (Nat × List Nat))
    (start quantity : Nat) :
    (get_cached_registers (applyPuts puts []) start quantity).length = quantity
    ∧ (∀ i, i < quantity →
        (get_cached_registers (applyPuts puts []) start quantity).getD i 0
          = (lastPut? puts (start + i)).getD 0)
    ∧ (∀ (c : Cache) (s : Nat) (vs : List Nat) (s2 q : Nat),
        s ≤ s2 → s2 + q ≤ s + vs.length →
        get_cached_registers (update_cache c s vs) s2 q
          = (vs.drop (s2 - s)).take q) := by
  refine ⟨?_, ?_, ?_⟩
  · simp [get_cached_registers]
  · intro i hi
    simp only [get_cached_registers]
    rw [List.getD_eq_getElem?_getD, List.getElem?_map, List.getElem?_range hi]
    simp only [Option.map_some', Option.getD_some]
    rw [dictGet_applyPuts]
    rfl
  · intro c s vs s2 q h1 h2
    exact get_cached_registers_update c s vs s2 q h1 h2

/-- Witness for C1 at the concrete history `put(5, [7, 8, 9])`. -/
theorem c1_cache_read_returns_last_puts_witness :
    (get_cached_registers (applyPuts [(5, [7, 8, 9])] []) 4 6).getD 2 0
        = (lastPut? [(5, [7, 8, 9])] (4 + 2)).getD 0
    ∧ get_cached_registers (update_cache [] 5 [7, 8, 9]) 6 2
        = ([7, 8, 9].drop (6 - 5)).take 2 :=
  ⟨(c1_cache_read_returns_last_puts [(5, [7, 8, 9])] 4 6).2.1 2 (by decide),
   (c1_cache_read_returns_last_puts [(5, [7, 8, 9])] 4 6).2.2 [] 5 [7, 8, 9] 6 2
     (by decide) (by decide)⟩

/-! ### Claim C9 -/

/-- **C9.** The cache grows monotonically under the gateway's cache
operations (reads leave the dict untouched, puts only add or overwrite
entries): over any operation history from the empty cache, the reported
size never decreases, an address once present stays present, and a
later read of a present address returns the value most recently put
there, never the absent-address default again. -/
theorem c9_cache_monotone (ops ops2 : List CacheOp) (a : Nat) :
    (runCacheOps [] ops).length ≤ (runCacheOps [] (ops ++ ops2)).length
    ∧ (dictMem (runCacheOps [] ops) a = true →
        dictMem (runCacheOps [] (ops ++ ops2)) a = true)
    ∧ (dictMem (runCacheOps [] ops) a = true →
        ∃ v, lastPut? (putsOf (ops ++ ops2)) a = some v
          ∧ get_cached_registers (runCacheOps [] (ops ++ ops2)) a 1 = [v]) := by
  have hrw : runCacheOps ([] : Cache) (ops ++ ops2)
      = applyPuts (putsOf ops2) (runCacheOps [] ops) := by
    rw [runCacheOps_eq_applyPuts, putsOf_append, applyPuts_append,
      runCacheOps_eq_applyPuts]
  refine ⟨?_, ?_, ?_⟩
  · rw [hrw]; exact length_applyPuts_ge _ _
  · intro h
    rw [hrw, dictMem_applyPuts]
    simp [h]
  · intro h
    have hm : dictMem (runCacheOps [] (ops ++ ops2)) a = true := by
      rw [hrw, dictMem_applyPuts]; simp [h]
    rw [runCacheOps_eq_applyPuts] at hm ⊢
    rw [dictMem_applyPuts] at hm
    rw [show dictMem [] a = false from rfl, Bool.or_false] at hm
    obtain ⟨v, hv⟩ := Option.isSome_iff_exists.mp hm
    refine ⟨v, hv, ?_⟩
    simp only [get_cached_registers,
      show List.range 1 = [0] from rfl, List.map_cons, List.map_nil,
      Nat.add_zero]
    rw [dictGet_applyPuts, hv]
    rfl

/-- Witness for C9 at the concrete history `put(3, [1])` then a read. -/
theorem c9_cache_monotone_witness :
    (runCacheOps [] [CacheOp.put 3 [1]]).length
        ≤ (runCacheOps [] ([CacheOp.put 3 [1]] ++ [CacheOp.get 0 5])).length
    ∧ dictMem (runCacheOps [] ([CacheOp.put 3 [1]] ++ [CacheOp.get 0 5])) 3 = true
    ∧ (∃ v, lastPut? (putsOf ([CacheOp.put 3 [1]] ++ [CacheOp.get 0 5])) 3 = some v
        ∧ get_cached_registers
            (runCacheOps [] ([CacheOp.put 3 [1]] ++ [CacheOp.get 0 5])) 3 1 = [v]) :=
  ⟨(c9_cache_monotone [CacheOp.put 3 [1]] [CacheOp.get 0 5] 3).1,
   (c9_cache_monotone [CacheOp.put 3 [1]] [CacheOp.get 0 5] 3).2.1 (by decide),
   (c9_cache_monotone [CacheOp.put 3 [1]] [CacheOp.get 0 5] 3).2.2 (by decide)⟩

/-! ### Claim C2 -/

theorem spanFold_le (es : Ranges) (init : Int × Int) :
    (spanFold init es).1 ≤ init.1 ∧ init.2 ≤ (spanFold init es).2 := by
  induction es generalizing init with
  | nil => exact ⟨le_refl _, le_refl _⟩
  | cons f es ih =>
      have h := ih (min init.1 f.1.1, max init.2 f.1.2)
      refine ⟨le_trans h.1 ?_, le_trans ?_ h.2⟩
      · exact min_le_left _ _
      · exact le_max_left _ _

theorem spanFold_bounds (es : Ranges) (init : Int × Int) :
    ∀ en ∈ es, (spanFold init es).1 ≤ en.1.1 ∧ en.1.2 ≤ (spanFold init es).2 := by
  induction es generalizing init with
  | nil => intro en h; cases h
  | cons f es ih =>
      intro en hen
      rcases List.mem_cons.mp hen with h | h
      · subst h
        have h := spanFold_le es (min init.1 en.1.1, max init.2 en.1.2)
        exact ⟨le_trans h.1 (min_le_right _ _), le_trans (le_max_right _ _) h.2⟩
      · exact ih _ en h

theorem spanFold_attained (es : Ranges) (init : Int × Int) :
    ((spanFold init es).1 = init.1 ∨ ∃ en ∈ es, (spanFold init es).1 = en.1.1)
    ∧ ((spanFold init es).2 = init.2 ∨ ∃ en ∈ es, (spanFold init es).2 = en.1.2) := by
  induction es generalizing init with
  | nil => exact ⟨Or.inl rfl, Or.inl rfl⟩
  | cons f es ih =>
      have h := ih (min init.1 f.1.1, max init.2 f.1.2)
      constructor
      · rcases h.1 with h1 | ⟨en, hen, he⟩
        · rcases min_choice init.1 f.1.1 with hm | hm
          · exact Or.inl (h1.trans hm)
          · exact Or.inr ⟨f, List.mem_cons_self _ _, h1.trans hm⟩
        · exact Or.inr ⟨en, List.mem_cons_of_mem _ hen, he⟩
      · rcases h.2 with h1 | ⟨en, hen, he⟩
        · rcases max_choice init.2 f.1.2 with hm | hm
          · exact Or.inl (h1.trans hm)
          · exact Or.inr ⟨f, List.mem_cons_self _ _, h1.trans hm⟩
        · exact Or.inr ⟨en, List.mem_cons_of_mem _ hen, he⟩

/-- **C2.** `get_polling_range` first removes exactly the entries whose
age strictly exceeds `RANGE_TIMEOUT` (10s): an entry touched at `T` is
still present when queried at `T + 10 - ε` and gone at `T + 10 + ε` for
any `ε > 0`. It returns `none` when no entries remain and otherwise the
single spanning range (minimum start, maximum end) over the remaining
entries; with remaining entries `(0,1)` and `(100,101)` it returns
`(0,101)`. -/
theorem c2_polling_window (r : Ranges) (now : ℚ) :
    (∀ en : (Int × Int) × ℚ,
        en ∈ keptRanges r now ↔ (en ∈ r ∧ now - en.2 ≤ RANGE_TIMEOUT))
    ∧ (∀ (T eps : ℚ) (rng : Int × Int), 0 < eps →
        keptRanges [(rng, T)] (T + RANGE_TIMEOUT - eps) = [(rng, T)]
        ∧ keptRanges [(rng, T)] (T + RANGE_TIMEOUT + eps) = [])
    ∧ (get_polling_range r now = none ↔ keptRanges r now = [])
    ∧ (∀ lo hi : Int, get_polling_range r now = some (lo, hi) →
        (∀ en ∈ keptRanges r now, lo ≤ en.1.1 ∧ en.1.2 ≤ hi)
        ∧ (∃ en ∈ keptRanges r now, en.1.1 = lo)
        ∧ (∃ en ∈ keptRanges r now, en.1.2 = hi))
    ∧ (∀ t1 t2 : ℚ, now - t1 ≤ RANGE_TIMEOUT → now - t2 ≤ RANGE_TIMEOUT →
        get_polling_range [((0, 1), t1), ((100, 101), t2)] now = some (0, 101)) := by
  refine ⟨?_, ?_, ?_, ?_, ?_⟩
  · intro en
    simp [keptRanges, List.mem_filter, not_lt]
  · intro T eps rng heps
    constructor
    · have hc : ¬ (T + RANGE_TIMEOUT - eps) - T > RANGE_TIMEOUT := by
        simp only [not_lt]; linarith
      simp [keptRanges, List.filter, hc]
    · have hc : (T + RANGE_TIMEOUT + eps) - T > RANGE_TIMEOUT := by linarith
      simp [keptRanges, List.filter, hc]
  · cases h : keptRanges r now <;> simp [get_polling_range, h]
  · intro lo hi hsome
    cases h : keptRanges r now with
    | nil => rw [get_polling_range, h] at hsome; cases hsome
    | cons en es =>
        rw [get_polling_range, h] at hsome
        have hspan : spanFold (en.1.1, en.1.2) es = (lo, hi) :=
          Option.some_injective _ hsome
        refine ⟨?_, ?_, ?_⟩
        · intro f hf
          rcases List.mem_cons.mp hf with hh | hh
          · subst hh
            have := spanFold_le es (f.1.1, f.1.2)
            rw [hspan] at this
            exact this
          · have := spanFold_bounds es (en.1.1, en.1.2) f hh
            rw [hspan] at this
            exact this
        · have := (spanFold_attained es (en.1.1, en.1.2)).1
          rw [hspan] at this
          rcases this with h1 | ⟨f, hf, he⟩
          · exact ⟨en, List.mem_cons_self _ _, h1.symm⟩
          · exact ⟨f, List.mem_cons_of_mem _ hf, he.symm⟩
        · have := (spanFold_attained es (en.1.1, en.1.2)).2
          rw [hspan] at this
          rcases this with h1 | ⟨f, hf, he⟩
          · exact ⟨en, List.mem_cons_self _ _, h1.symm⟩
          · exact ⟨f, List.mem_cons_of_mem _ hf, he.symm⟩
  · intro t1 t2 h1 h2
    have hc1 : ¬ now - t1 > RANGE_TIMEOUT := not_lt.mpr h1
    have hc2 : ¬ now - t2 > RANGE_TIMEOUT := not_lt.mpr h2
    simp only [get_polling_range, keptRanges, List.filter, decide_eq_true_eq,
      hc1, hc2, decide_True, decide_eq_true hc1, decide_eq_true hc2]
    norm_num [spanFold]

/-- Witness for C2 at two concrete entries and `now = 6`. -/
theorem c2_polling_window_witness :
    (keptRanges [(((2 : Int), (3 : Int)), (0 : ℚ))] (0 + RANGE_TIMEOUT - 1/2)
        = [(((2 : Int), (3 : Int)), (0 : ℚ))]
      ∧ keptRanges [(((2 : Int), (3 : Int)), (0 : ℚ))] (0 + RANGE_TIMEOUT + 1/2) = [])
    ∧ ((∀ en ∈ keptRanges [(((0 : Int), (1 : Int)), (0 : ℚ)),
          (((100 : Int), (101 : Int)), (5 : ℚ))] 6,
          (0 : Int) ≤ en.1.1 ∧ en.1.2 ≤ (101 : Int))
        ∧ (∃ en ∈ keptRanges [(((0 : Int), (1 : Int)), (0 : ℚ)),
            (((100 : Int), (101 : Int)), (5 : ℚ))] 6, en.1.1 = (0 : Int))
        ∧ (∃ en ∈ keptRanges [(((0 : Int), (1 : Int)), (0 : ℚ)),
            (((100 : Int), (101 : Int)), (5 : ℚ))] 6, en.1.2 = (101 : Int)))
    ∧ get_polling_range [(((0 : Int), (1 : Int)), (0 : ℚ)),
        (((100 : Int), (101 : Int)), (5 : ℚ))] 6 = some (0, 101) :=
  ⟨(c2_polling_window [] 0).2.1 0 (1/2) (2, 3) (by norm_num),
   (c2_polling_window [(((0 : Int), (1 : Int)), (0 : ℚ)),
      (((100 : Int), (101 : Int)), (5 : ℚ))] 6).2.2.2.1 0 101
     ((c2_polling_window [(((0 : Int), (1 : Int)), (0 : ℚ)),
        (((100 : Int), (101 : Int)), (5 : ℚ))] 6).2.2.2.2 0 5
       (by norm_num [RANGE_TIMEOUT]) (by norm_num [RANGE_TIMEOUT])),
   (c2_polling_window [(((0 : Int), (1 : Int)), (0 : ℚ)),
      (((100 : Int), (101 : Int)), (5 : ℚ))] 6).2.2.2.2 0 5
     (by norm_num [RANGE_TIMEOUT]) (by norm_num [RANGE_TIMEOUT])⟩

/-! ### Claim C7 -/

theorem crc16_specSteps_eq (n c : Nat) : crc16_specSteps n c = crcRounds n c := by
  induction n generalizing c with
  | zero => rfl
  | succ n ih => simp only [crc16_specSteps, crcRounds, crcShift, ih]

theorem calculate_crc16_val_eq_spec (data : List Nat) :
    calculate_crc16_val data = crc16_spec data 0xFFFF := by
  suffices h : ∀ crc, data.foldl (fun c b => crcRounds 8 (c ^^^ b)) crc
      = crc16_spec data crc from (h 0xFFFF).symm ▸ rfl
  induction data with
  | nil => intro crc; rfl
  | cons b bs ih =>
      intro crc
      simp only [List.foldl_cons, crc16_spec, crc16_specSteps_eq]
      exact ih _

theorem crcShift_lt (c : Nat) (h : c < 65536) : crcShift c < 65536 := by
  rw [crcShift]
  split
  · have h1 : c / 2 < 2 ^ 16 := by omega
    have h2 : 0xA001 < 2 ^ 16 := by norm_num
    have := Nat.xor_lt_two_pow h1 h2
    simpa using this
  · omega

theorem crcRounds_lt (n c : Nat) (h : c < 65536) : crcRounds n c < 65536 := by
  induction n generalizing c with
  | zero => exact h
  | succ n ih => exact ih _ (crcShift_lt c h)

theorem calculate_crc16_val_lt (data : List Nat)
    (hb : ∀ b ∈ data, b < 65536) : calculate_crc16_val data < 65536 := by
  suffices h : ∀ crc, crc < 65536 →
      data.foldl (fun c b => crcRounds 8 (c ^^^ b)) crc < 65536 by
    exact h 0xFFFF (by norm_num)
  induction data with
  | nil => intro crc hc; exact hc
  | cons b bs ih =>
      intro crc hc
      simp only [List.foldl_cons]
      refine ih (fun x hx => hb x (List.mem_cons_of_mem _ hx)) _ ?_
      refine crcRounds_lt _ _ ?_
      have h1 : crc < 2 ^ 16 := by omega
      have h2 : b < 2 ^ 16 := by
        have := hb b (List.mem_cons_self _ _)
        omega
      have := Nat.xor_lt_two_pow h1 h2
      omega

/-- **C7.** For every slave byte, in-range 16-bit address and quantity,
`create_modbus_read_request` produces exactly: slave byte, function
byte `0x03`, big-endian address, big-endian quantity, then the
little-endian CRC16 (seed `0xFFFF`, reflected polynomial `0xA001`,
per-byte XOR followed by 8 conditional shift steps — `crc16_spec`, a
transcription of the claim's algorithm) of the preceding six bytes. -/
theorem c7_encode_read (slave : Nat) (addr qty : Int)
    (hs : slave < 256) (ha0 : 0 ≤ addr) (ha : addr < 65536)
    (hq0 : 0 ≤ qty) (hq : qty < 65536) :
    create_modbus_read_request slave addr qty
      = some ([slave, 0x03, addr.toNat / 256, addr.toNat % 256,
               qty.toNat / 256, qty.toNat % 256]
          ++ [crc16_spec [slave, 0x03, addr.toNat / 256, addr.toNat % 256,
                qty.toNat / 256, qty.toNat % 256] 0xFFFF % 256,
              crc16_spec [slave, 0x03, addr.toNat / 256, addr.toNat % 256,
                qty.toNat / 256, qty.toNat % 256] 0xFFFF / 256]) := by
  have haN : addr.toNat < 65536 := by omega
  have hqN : qty.toNat < 65536 := by omega
  have hdiva : addr.toNat / 256 < 256 := by omega
  have hdivq : qty.toNat / 256 < 256 := by omega
  have h1 : packH addr = some [addr.toNat / 256, addr.toNat % 256] := by
    rw [packH, if_pos ⟨ha0, ha⟩, Nat.mod_eq_of_lt hdiva]
  have h2 : packH qty = some [qty.toNat / 256, qty.toNat % 256] := by
    rw [packH, if_pos ⟨hq0, hq⟩, Nat.mod_eq_of_lt hdivq]
  have h3 : packB slave = some [slave] := by rw [packB, if_pos hs]
  have hreq : [slave] ++ [0x03] ++ [addr.toNat / 256, addr.toNat % 256]
      ++ [qty.toNat / 256, qty.toNat % 256]
      = [slave, 0x03, addr.toNat / 256, addr.toNat % 256,
         qty.toNat / 256, qty.toNat % 256] := by simp
  have hlt : calculate_crc16_val [slave, 0x03, addr.toNat / 256, addr.toNat % 256,
      qty.toNat / 256, qty.toNat % 256] < 65536 := by
    refine calculate_crc16_val_lt _ ?_
    intro b hbmem
    simp only [List.mem_cons, List.not_mem_nil, or_false] at hbmem
    rcases hbmem with h | h | h | h | h | h <;> subst h <;> omega
  have hdivlt : calculate_crc16_val [slave, 0x03, addr.toNat / 256, addr.toNat % 256,
      qty.toNat / 256, qty.toNat % 256] / 256 < 256 := by omega
  simp only [create_modbus_read_request, h1, h2, h3, Option.bind_eq_bind,
    Option.some_bind, hreq, calculate_crc16]
  rw [Nat.mod_eq_of_lt hdivlt, calculate_crc16_val_eq_spec]

/-- Witness for C7 at slave 1, address 0, quantity 10 (a frame whose
CRC is the well-known `0xCDC5`, i.e. bytes `C5 CD` on the wire). -/
theorem c7_encode_read_witness :
    create_modbus_read_request 1 0 10
      = some ([1, 0x03, (0 : Int).toNat / 256, (0 : Int).toNat % 256,
               (10 : Int).toNat / 256, (10 : Int).toNat % 256]
          ++ [crc16_spec [1, 0x03, (0 : Int).toNat / 256, (0 : Int).toNat % 256,
                (10 : Int).toNat / 256, (10 : Int).toNat % 256] 0xFFFF % 256,
              crc16_spec [1, 0x03, (0 : Int).toNat / 256, (0 : Int).toNat % 256,
                (10 : Int).toNat / 256, (10 : Int).toNat % 256] 0xFFFF / 256]) :=
  c7_encode_read 1 0 10 (by decide) (by decide) (by decide) (by decide) (by decide)

/-! ### Claim C10 -/

/-- **C10.** The write endpoint validates only the value: with integer
fields, any `0 ≤ value ≤ 65535` yields HTTP 200 and enqueues the task
whatever the address (an address above 65535 only makes the worker's
later `struct.pack` encoding fail), while `value < 0` or
`value > 65535` yields HTTP 400 and leaves the queue unchanged. -/
theorem c10_send_data_validates_value_only (st : GatewayState)
    (address value : Int) :
    (0 ≤ value ∧ value ≤ 65535 →
      (send_data st address value).1 = 200
      ∧ (send_data st address value).2.task_queue
          = st.task_queue ++ [⟨address, value⟩])
    ∧ (value < 0 ∨ value > 65535 →
      (send_data st address value).1 = 400
      ∧ (send_data st address value).2 = st)
    ∧ (∀ slave : Nat, 65535 < address →
        create_modbus_write_request slave address value = none) := by
  refine ⟨?_, ?_, ?_⟩
  · intro h
    rw [send_data, if_neg (by omega)]
    exact ⟨rfl, rfl⟩
  · intro h
    rw [send_data, if_pos (by omega)]
    exact ⟨rfl, rfl⟩
  · intro slave h
    rw [create_modbus_write_request]
    rw [show packH address = none by rw [packH, if_neg (by omega)]]
    rfl

/-- Witness for C10: address 70000 is accepted with value 5, value
70000 is rejected, and encoding address 70000 fails. -/
theorem c10_send_data_validates_value_only_witness :
    ((send_data ⟨[], []⟩ 70000 5).1 = 200
      ∧ (send_data ⟨[], []⟩ 70000 5).2.task_queue = [] ++ [⟨70000, 5⟩])
    ∧ ((send_data ⟨[], []⟩ 10 70000).1 = 400
      ∧ (send_data ⟨[], []⟩ 10 70000).2 = (⟨[], []⟩ : GatewayState))
    ∧ create_modbus_write_request SLAVE_ADDRESS 70000 5 = none :=
  ⟨(c10_send_data_validates_value_only ⟨[], []⟩ 70000 5).1 (by decide),
   (c10_send_data_validates_value_only ⟨[], []⟩ 10 70000).2.1 (by decide),
   (c10_send_data_validates_value_only ⟨[], []⟩ 70000 5).2.2
     SLAVE_ADDRESS (by decide)⟩

/-! ### Claim C5 -/

theorem dictGet_of_not_mem (c : Cache) (a d : Nat)
    (h : dictMem c a = false) : dictGet c a d = d := by
  induction c with
  | nil => rfl
  | cons p t ih =>
      simp only [dictMem, Bool.or_eq_false_iff, beq_eq_false_iff_ne, ne_eq] at h
      simp only [dictGet, if_neg h.1]
      exact ih h.2

/-- **C5.** Enqueueing a write task leaves the register cache unchanged:
after `send_data` (whatever its outcome), any read returns the same
values as before, and in particular `Read(address=10, quantity=1)`
still returns `[0]` when address 10 was never polled. -/
theorem c5_write_leaves_cache_unchanged (st : GatewayState)
    (address value : Int) (start quantity : Nat) :
    (send_data st address value).2.cache = st.cache
    ∧ get_cached_registers (send_data st address value).2.cache start quantity
        = get_cached_registers st.cache start quantity
    ∧ (dictMem st.cache 10 = false →
        get_cached_registers (send_data st address value).2.cache 10 1 = [0]) := by
  have hc : (send_data st address value).2.cache = st.cache := by
    rw [send_data]; split <;> rfl
  refine ⟨hc, by rw [hc], ?_⟩
  intro h
  rw [hc]
  simp only [get_cached_registers, show List.range 1 = [0] from rfl,
    List.map_cons, List.map_nil, Nat.add_zero]
  rw [dictGet_of_not_mem _ _ _ h]

/-- Witness for C5 at a cache holding only address 3. -/
theorem c5_write_leaves_cache_unchanged_witness :
    (send_data ⟨[(3, 7)], []⟩ 10 5).2.cache = [(3, 7)]
    ∧ get_cached_registers (send_data ⟨[(3, 7)], []⟩ 10 5).2.cache 0 4
        = get_cached_registers [(3, 7)] 0 4
    ∧ get_cached_registers (send_data ⟨[(3, 7)], []⟩ 10 5).2.cache 10 1 = [0] :=
  ⟨(c5_write_leaves_cache_unchanged ⟨[(3, 7)], []⟩ 10 5 0 4).1,
   (c5_write_leaves_cache_unchanged ⟨[(3, 7)], []⟩ 10 5 0 4).2.1,
   (c5_write_leaves_cache_unchanged ⟨[(3, 7)], []⟩ 10 5 0 4).2.2 (by decide)⟩

/-! ### Claim C3 -/

theorem chunkList_eq_nil_iff (current remaining : Nat) :
    chunkList current remaining = [] ↔ remaining = 0 := by
  rw [chunkList]
  by_cases h : remaining = 0
  · simp [h]
  · simp [h]

theorem chunkAddrs_chunkList (remaining current : Nat) :
    chunkAddrs (chunkList current remaining)
      = (List.range remaining).map (fun i => current + i) := by
  induction remaining using Nat.strong_induction_on generalizing current with
  | _ n ih =>
    rw [chunkList]
    by_cases h : n = 0
    · simp [h, chunkAddrs]
    · rw [if_neg h]
      have hq1 : 1 ≤ min n MAX_READ_QUANTITY := by
        simp only [MAX_READ_QUANTITY]; omega
      have hqn : min n MAX_READ_QUANTITY ≤ n := Nat.min_le_left _ _
      simp only [chunkAddrs, List.flatMap_cons]
      rw [show (chunkList (current + min n MAX_READ_QUANTITY)
        (n - min n MAX_READ_QUANTITY)).flatMap
          (fun ch => (List.range ch.2).map (fun i => ch.1 + i))
        = chunkAddrs (chunkList (current + min n MAX_READ_QUANTITY)
            (n - min n MAX_READ_QUANTITY)) from rfl]
      rw [ih (n - min n MAX_READ_QUANTITY) (by omega)]
      have hsplit : List.range n = List.range (min n MAX_READ_QUANTITY)
          ++ (List.range (n - min n MAX_READ_QUANTITY)).map
               (fun i => min n MAX_READ_QUANTITY + i) := by
        have hn : n = min n MAX_READ_QUANTITY + (n - min n MAX_READ_QUANTITY) := by
          omega
        nth_rewrite 1 [hn]
        rw [List.range_add]
      rw [hsplit, List.map_append, List.map_map]
      congr 1
      apply List.map_congr_left
      intro i _
      simp only [Function.comp_apply]
      omega

theorem chunkList_sizes (remaining current : Nat) :
    ∀ ch ∈ chunkList current remaining,
      0 < ch.2 ∧ ch.2 ≤ MAX_READ_QUANTITY := by
  induction remaining using Nat.strong_induction_on generalizing current with
  | _ n ih =>
    rw [chunkList]
    by_cases h : n = 0
    · simp [h]
    · rw [if_neg h]
      intro ch hch
      rcases List.mem_cons.mp hch with hh | hh
      · subst hh
        constructor
        · simp only [MAX_READ_QUANTITY]; omega
        · exact Nat.min_le_right _ _
      · exact ih (n - min n MAX_READ_QUANTITY)
          (by simp only [MAX_READ_QUANTITY]; omega) _ ch hh

theorem chunkList_full_except_last (remaining current i : Nat) :
    i + 1 < (chunkList current remaining).length →
    ((chunkList current remaining).getD i (0, 0)).2 = MAX_READ_QUANTITY := by
  induction remaining using Nat.strong_induction_on generalizing current i with
  | _ n ih =>
    rw [chunkList]
    by_cases h : n = 0
    · simp [h]
    · rw [if_neg h]
      intro hlen
      simp only [List.length_cons] at hlen
      cases i with
      | zero =>
          have hne : chunkList (current + min n MAX_READ_QUANTITY)
              (n - min n MAX_READ_QUANTITY) ≠ [] := by
            intro hnil
            rw [hnil] at hlen
            simp at hlen
          have hrem : n - min n MAX_READ_QUANTITY ≠ 0 :=
            fun hz => hne ((chunkList_eq_nil_iff _ _).mpr hz)
          have : min n MAX_READ_QUANTITY = MAX_READ_QUANTITY := by
            simp only [MAX_READ_QUANTITY] at *; omega
          simpa [List.getD_cons_zero] using this
      | succ j =>
          rw [List.getD_cons_succ]
          exact ih (n - min n MAX_READ_QUANTITY)
            (by simp only [MAX_READ_QUANTITY]; omega) _ j (by omega)

/-- The puts a polling pass performs: one per successfully read chunk,
at the chunk's start address, in chunk order. -/
def successPuts (oracle : Nat → Nat → Option (List Nat))
    (cs : List (Nat × Nat)) : List (Nat × List Nat) :=
  cs.filterMap (fun ch => (oracle ch.1 ch.2).map (fun regs => (ch.1, regs)))

/-- The error messages a polling pass logs: one per failed chunk, in
chunk order. -/
def failLogs (oracle : Nat → Nat → Option (List Nat))
    (cs : List (Nat × Nat)) : List String :=
  cs.filterMap (fun ch => match oracle ch.1 ch.2 with
    | some _ => none
    | none => some (pollFailMsg ch.1 ch.2))

theorem pollLoop_eq_successPuts (oracle : Nat → Nat → Option (List Nat))
    (remaining current : Nat) (c : Cache) (logs : List String) :
    pollLoop oracle current remaining c logs
      = (applyPuts (successPuts oracle (chunkList current remaining)) c,
         (failLogs oracle (chunkList current remaining)).foldl
           (ringAppend MAX_ERROR_LOGS) logs) := by
  induction remaining using Nat.strong_induction_on generalizing current c logs with
  | _ n ih =>
    rw [pollLoop, chunkList]
    by_cases h : n = 0
    · simp [h, successPuts, failLogs, applyPuts]
    · rw [if_neg h, if_neg h]
      simp only [successPuts, failLogs, List.filterMap_cons]
      cases ho : oracle current (min n MAX_READ_QUANTITY) with
      | some regs =>
          simp only [Option.map_some']
          rw [ih (n - min n MAX_READ_QUANTITY)
            (by simp only [MAX_READ_QUANTITY]; omega)]
          rfl
      | none =>
          simp only [Option.map_none']
          rw [ih (n - min n MAX_READ_QUANTITY)
            (by simp only [MAX_READ_QUANTITY]; omega)]
          rfl

/-- **C3.** For a polling window `(start, endAddr)` with
`start ≤ endAddr`, the pass reads consecutive chunks in ascending
address order covering each window address exactly once, every chunk
holds at most 47 registers and all but possibly the last exactly 47;
the cache receives exactly one put per successful chunk (at the
chunk's start address) and the error-log ring exactly one
`"Polling failed: ..."` append per failed chunk, in chunk order —
failed chunks are logged and skipped without aborting the rest. -/
theorem c3_polling_pass_chunks (start endAddr : Nat) (h : start ≤ endAddr)
    (oracle : Nat → Nat → Option (List Nat)) (c : Cache) (logs : List String) :
    chunkAddrs (chunkList start (endAddr - start + 1))
        = (List.range (endAddr - start + 1)).map (fun i => start + i)
    ∧ (∀ ch ∈ chunkList start (endAddr - start + 1),
        0 < ch.2 ∧ ch.2 ≤ MAX_READ_QUANTITY)
    ∧ (∀ i, i + 1 < (chunkList start (endAddr - start + 1)).length →
        ((chunkList start (endAddr - start + 1)).getD i (0, 0)).2
          = MAX_READ_QUANTITY)
    ∧ (pollLoop oracle start (endAddr - start + 1) c logs).1
        = applyPuts (successPuts oracle (chunkList start (endAddr - start + 1))) c
    ∧ (pollLoop oracle start (endAddr - start + 1) c logs).2
        = (failLogs oracle (chunkList start (endAddr - start + 1))).foldl
            (ringAppend MAX_ERROR_LOGS) logs :=
  ⟨chunkAddrs_chunkList _ _, chunkList_sizes _ _,
   fun i => chunkList_full_except_last _ _ i,
   by rw [pollLoop_eq_successPuts],
   by rw [pollLoop_eq_successPuts]⟩

/-- A concrete per-chunk read oracle for the C3 witness: the chunk at
address 47 fails, every other chunk succeeds. -/
def c3_oracle : Nat → Nat → Option (List Nat) :=
  fun a q => if a = 47 then none else some (List.replicate q 1)

/-- Witness for C3 over the window `(0, 99)` with a failing middle
chunk. -/
theorem c3_polling_pass_chunks_witness :
    chunkAddrs (chunkList 0 (99 - 0 + 1))
        = (List.range (99 - 0 + 1)).map (fun i => 0 + i)
    ∧ (pollLoop c3_oracle 0 (99 - 0 + 1) [] []).1
        = applyPuts (successPuts c3_oracle (chunkList 0 (99 - 0 + 1))) []
    ∧ (pollLoop c3_oracle 0 (99 - 0 + 1) [] []).2
        = (failLogs c3_oracle (chunkList 0 (99 - 0 + 1))).foldl
            (ringAppend MAX_ERROR_LOGS) [] :=
  ⟨(c3_polling_pass_chunks 0 99 (by decide) c3_oracle [] []).1,
   (c3_polling_pass_chunks 0 99 (by decide) c3_oracle [] []).2.2.2.1,
   (c3_polling_pass_chunks 0 99 (by decide) c3_oracle [] []).2.2.2.2⟩

/-! ### Claim C4 -/

/-- **C4.** Writes are issued in FIFO enqueue order (the issued write
sequence is a prefix of the queue contents followed by all later
arrivals in order), and any write task in the queue at the start of an
iteration is issued before every polling read chunk of that or any
later iteration: the worker checks the queue first each iteration and
polls only when it is empty. -/
theorem c4_write_fifo_priority (queue : List WTask) (plan : List IterInput) :
    writesOf (workerRun queue plan)
        <+: queue ++ (plan.map IterInput.arrivals).flatten
    ∧ (∀ t ∈ queue, ∀ (p a q : Nat),
        (workerRun queue plan)[p]? = some (WorkerEvent.pollChunk a q) →
        ∃ w, w < p ∧ (workerRun queue plan)[w]? = some (WorkerEvent.write t)) := by
  constructor
  · induction plan generalizing queue with
    | nil => simp [workerRun, writesOf]
    | cons it rest ih =>
        rw [workerRun]
        cases hq : queue ++ it.arrivals with
        | nil =>
            obtain ⟨hq1, hq2⟩ := List.append_eq_nil.mp hq
            subst hq1
            have hw : writesOf ((it.chunks.map
                (fun ch => WorkerEvent.pollChunk ch.1 ch.2))
                  ++ workerRun [] rest) = writesOf (workerRun [] rest) := by
              simp only [writesOf, List.filterMap_append, List.filterMap_map]
              rw [show (List.filterMap
                ((fun e => match e with
                  | WorkerEvent.write t => some t
                  | x => none) ∘ fun ch => WorkerEvent.pollChunk ch.1 ch.2)
                it.chunks) = [] from List.filterMap_eq_nil_iff.mpr (by
                  intro ch hch
                  rfl)]
              rfl
            rw [hw]
            simp only [List.nil_append, List.map_cons, List.flatten_cons, hq2,
              List.nil_append]
            exact ih []
        | cons t ts =>
            have hflat : queue ++ ((it :: rest).map IterInput.arrivals).flatten
                = t :: (ts ++ (rest.map IterInput.arrivals).flatten) := by
              simp only [List.map_cons, List.flatten_cons]
              rw [← List.append_assoc, hq]
              rfl
            rw [hflat]
            simp only [writesOf, List.filterMap_cons]
            exact List.cons_prefix_cons.mpr ⟨rfl, ih ts⟩
  · induction plan generalizing queue with
    | nil =>
        intro t ht p a q hp
        simp [workerRun] at hp
    | cons it rest ih =>
        intro t ht p a q hp
        cases queue with
        | nil => cases ht
        | cons t0 ts0 =>
            rw [workerRun] at hp
            simp only [List.cons_append] at hp
            cases p with
            | zero => simp at hp
            | succ p2 =>
                rw [List.getElem?_cons_succ] at hp
                rcases List.mem_cons.mp ht with hh | hh
                · subst hh
                  refine ⟨0, Nat.succ_pos _, ?_⟩
                  rw [workerRun]
                  simp
                · obtain ⟨w, hw1, hw2⟩ := ih (ts0 ++ it.arrivals) t
                    (List.mem_append_left _ hh) p2 a q hp
                  refine ⟨w + 1, by omega, ?_⟩
                  rw [workerRun]
                  simp only [List.cons_append, List.getElem?_cons_succ]
                  exact hw2

/-- Witness for C4: one queued task, then an idle polling iteration. -/
theorem c4_write_fifo_priority_witness :
    writesOf (workerRun [⟨1, 2⟩] [⟨[], [(0, 5)]⟩, ⟨[], [(7, 2)]⟩])
        <+: [⟨1, 2⟩] ++ (([⟨[], [(0, 5)]⟩, ⟨[], [(7, 2)]⟩] : List IterInput).map
              IterInput.arrivals).flatten
    ∧ ∃ w, w < 1 ∧ (workerRun [⟨1, 2⟩] [⟨[], [(0, 5)]⟩, ⟨[], [(7, 2)]⟩])[w]?
        = some (WorkerEvent.write ⟨1, 2⟩) :=
  ⟨(c4_write_fifo_priority [⟨1, 2⟩] [⟨[], [(0, 5)]⟩, ⟨[], [(7, 2)]⟩]).1,
   (c4_write_fifo_priority [⟨1, 2⟩] [⟨[], [(0, 5)]⟩, ⟨[], [(7, 2)]⟩]).2
     ⟨1, 2⟩ (by decide) 1 7 2 (by decide)⟩

/-! ### Claim C8 -/

/-- Counterexample to C8. On the 6-byte function-0x06 frame
`[5, 6, 0, 10, 0, 99]` (echoed address 10 in bytes 2-3, echoed value 99
in bytes 4-5, 0-indexed), the parser reports `registers = [10]` — only
the echoed address; the echoed value 99 appears nowhere in the result,
so the claimed address/value pair `[10, 99]` is not reported. Moreover
on the 3-byte 0x06 frame `[5, 6, 0]` the parser raises `IndexError`
instead of returning a parsed result. -/
theorem c8_echo_pair_counterexample :
    (parse_modbus_response [5, 6, 0, 10, 0, 99]).map ParsedResponse.registers
        = Except.ok [10]
    ∧ ([10] : List Nat) ≠ [(0 <<< 8) ||| 10, (0 <<< 8) ||| 99]
    ∧ parse_modbus_response [5, 6, 0] = Except.error "IndexError" :=
  ⟨rfl, by decide, rfl⟩

/-- **C8 (amended).** For every response frame of at least 4 bytes whose
function-code byte equals `0x06`, decode succeeds and reports as its
sole register the single 16-bit big-endian value formed from bytes 2
and 3 (0-indexed) — the echoed register address; the echoed value
(bytes 4-5) is not reported. A 3-byte frame with function code `0x06`
makes decode fail with an `IndexError` instead. -/
theorem c8_write_echo_parsed (response : List Nat) :
    (4 ≤ response.length → response[1]? = some 6 →
      ∃ b0 b2 b3, response[0]? = some b0 ∧ response[2]? = some b2
        ∧ response[3]? = some b3
        ∧ parse_modbus_response response
          = Except.ok { status := "success", raw := response,
                        slave_address := some b0, function_code := some 6,
                        registers := [(b2 <<< 8) ||| b3] })
    ∧ (response.length = 3 → response[1]? = some 6 →
      parse_modbus_response response = Except.error "IndexError") := by
  constructor
  · intro h4 hf
    rcases response with _ | ⟨b0, _ | ⟨b1, _ | ⟨b2, _ | ⟨b3, rest⟩⟩⟩⟩ <;>
      simp only [List.length_nil, List.length_cons] at h4 <;> try omega
    have hb1 : b1 = 6 := by
      simpa using hf
    subst hb1
    refine ⟨b0, b2, b3, by simp, by simp, by simp, ?_⟩
    rw [parse_modbus_response,
      if_neg (by simp only [List.length_cons]; omega)]
    rfl
  · intro h3 hf
    rcases response with _ | ⟨b0, _ | ⟨b1, _ | ⟨b2, _ | ⟨b3, rest⟩⟩⟩⟩ <;>
      simp only [List.length_nil, List.length_cons] at h3 <;> try omega
    have hb1 : b1 = 6 := by
      simpa using hf
    subst hb1
    rfl

/-- Witness for the amended C8 on the frames of the counterexample. -/
theorem c8_write_echo_parsed_witness :
    (∃ b0 b2 b3, ([5, 6, 0, 10, 0, 99] : List Nat)[0]? = some b0
      ∧ ([5, 6, 0, 10, 0, 99] : List Nat)[2]? = some b2
      ∧ ([5, 6, 0, 10, 0, 99] : List Nat)[3]? = some b3
      ∧ parse_modbus_response [5, 6, 0, 10, 0, 99]
        = Except.ok { status := "success", raw := [5, 6, 0, 10, 0, 99],
                      slave_address := some b0, function_code := some 6,
                      registers := [(b2 <<< 8) ||| b3] })
    ∧ parse_modbus_response [5, 6, 0] = Except.error "IndexError" :=
  ⟨(c8_write_echo_parsed [5, 6, 0, 10, 0, 99]).1 (by decide) (by decide),
   (c8_write_echo_parsed [5, 6, 0]).2 (by decide) (by decide)⟩

/-! ### Claim C6 -/

/-- **C6.** For a transaction attempt that reaches the wire (the port
is open or opens, and the frame encodes): on a serial I/O failure the
call closes the link, appends an error-log entry, sets the status to
`'mb-offline'` (the transport-error state) and returns a failed result
— the single `WireOutcome` consultation embeds that no internal retry
happens; whereas when bytes come back but decoding fails, it sets
`'mb-offline'` and logs the error but leaves the link open. -/
theorem c6_transact_error_paths (st : ClientState) (openOk : Bool)
    (slave : Nat) (addr : Int) (qty wv : Option Int)
    (m : String) (bytes : List Nat) (rt : ℚ)
    (hopen : st.port_open = true ∨ openOk = true)
    (henc : encodeReq slave addr qty wv ≠ none) :
    ((send_modbus_request_raw st openOk (.serialError m)
        slave addr qty wv).1.port_open = false
      ∧ (send_modbus_request_raw st openOk (.serialError m)
          slave addr qty wv).1.status = "mb-offline"
      ∧ (send_modbus_request_raw st openOk (.serialError m)
          slave addr qty wv).1.error_logs
          = ringAppend MAX_ERROR_LOGS st.error_logs ("Serial exception: " ++ m)
      ∧ (send_modbus_request_raw st openOk (.serialError m)
          slave addr qty wv).2.status = "error")
    ∧ (decodeFailed bytes = true →
      (send_modbus_request_raw st openOk (.response bytes rt)
          slave addr qty wv).1.port_open = true
      ∧ (send_modbus_request_raw st openOk (.response bytes rt)
          slave addr qty wv).1.status = "mb-offline"
      ∧ (∃ msg, (send_modbus_request_raw st openOk (.response bytes rt)
          slave addr qty wv).1.error_logs
            = ringAppend MAX_ERROR_LOGS st.error_logs msg)
      ∧ (send_modbus_request_raw st openOk (.response bytes rt)
          slave addr qty wv).2.status ≠ "success") := by
  obtain ⟨req, hreq⟩ : ∃ req, encodeReq slave addr qty wv = some req := by
    cases h : encodeReq slave addr qty wv with
    | none => exact absurd h henc
    | some r => exact ⟨r, rfl⟩
  have hne : ¬ (¬ st.port_open = true ∧ ¬ openOk = true) := by
    rcases hopen with h | h <;> simp [h]
  constructor
  · rw [send_modbus_request_raw, if_neg hne]
    rcases hopen with h | h
    · simp [h, hreq, add_error_log]
    · by_cases hp : st.port_open = true
      · simp [hp, hreq, add_error_log]
      · simp only [Bool.not_eq_true] at hp
        simp [hp, h, hreq, add_error_log]
  · intro hdf
    rw [send_modbus_request_raw, if_neg hne]
    cases hres : parse_modbus_response bytes with
    | error m2 =>
        rcases hopen with h | h
        · simp [h, hreq, hres, add_error_log, record_packet_time]
        · by_cases hp : st.port_open = true
          · simp [hp, hreq, hres, add_error_log, record_packet_time]
          · simp only [Bool.not_eq_true] at hp
            simp [hp, h, hreq, hres, add_error_log, record_packet_time]
    | ok parsed =>
        have hps : ¬ parsed.status = "success" := by
          rw [decodeFailed, hres] at hdf
          simpa using hdf
        rcases hopen with h | h
        · simp [h, hreq, hres, hps, add_error_log, record_packet_time]
        · by_cases hp : st.port_open = true
          · simp [hp, hreq, hres, hps, add_error_log, record_packet_time]
          · simp only [Bool.not_eq_true] at hp
            simp [hp, h, hreq, hres, hps, add_error_log, record_packet_time]

/-- Witness for C6 on an open port, a read request for one register,
a failure message, and an empty (hence undecodable) response. -/
theorem c6_transact_error_paths_witness :
    ((send_modbus_request_raw ⟨true, "online", [], []⟩ true (.serialError "boom")
        SLAVE_ADDRESS 0 (some 1) none).1.port_open = false
      ∧ (send_modbus_request_raw ⟨true, "online", [], []⟩ true (.serialError "boom")
          SLAVE_ADDRESS 0 (some 1) none).1.status = "mb-offline"
      ∧ (send_modbus_request_raw ⟨true, "online", [], []⟩ true (.serialError "boom")
          SLAVE_ADDRESS 0 (some 1) none).1.error_logs
          = ringAppend MAX_ERROR_LOGS [] ("Serial exception: " ++ "boom")
      ∧ (send_modbus_request_raw ⟨true, "online", [], []⟩ true (.serialError "boom")
          SLAVE_ADDRESS 0 (some 1) none).2.status = "error")
    ∧ ((send_modbus_request_raw ⟨true, "online", [], []⟩ true (.response [] 0)
          SLAVE_ADDRESS 0 (some 1) none).1.port_open = true
      ∧ (send_modbus_request_raw ⟨true, "online", [], []⟩ true (.response [] 0)
          SLAVE_ADDRESS 0 (some 1) none).1.status = "mb-offline"
      ∧ (∃ msg, (send_modbus_request_raw ⟨true, "online", [], []⟩ true (.response [] 0)
          SLAVE_ADDRESS 0 (some 1) none).1.error_logs
            = ringAppend MAX_ERROR_LOGS [] msg)
      ∧ (send_modbus_request_raw ⟨true, "online", [], []⟩ true (.response [] 0)
          SLAVE_ADDRESS 0 (some 1) none).2.status ≠ "success") :=
  ⟨(c6_transact_error_paths ⟨true, "online", [], []⟩ true SLAVE_ADDRESS 0
      (some 1) none "boom" [] 0 (Or.inl rfl) (by decide)).1,
   (c6_transact_error_paths ⟨true, "online", [], []⟩ true SLAVE_ADDRESS 0
      (some 1) none "boom" [] 0 (Or.inl rfl) (by decide)).2 (by decide)⟩

end JetTalk
